import Mathlib

/-!
# Verification of the ONNX→TensorFlow operator-translation backend

Shallow embedding of `onnx_tf/backend.py`: the portable-IR node model
(`AttributeProto`, `NodeProto`, `OnnxNode`), the attribute conversion and
dictionary semantics, the operator dispatch table, the per-operator handlers,
and a partial evaluator standing in for `tf.Session.run` on the tensor
expressions the handlers build.

Modelling conventions:
* Python `dict` is an insertion-ordered association list (`PyDict`);
  assignment to an existing key replaces the value in place, otherwise the
  pair is appended, matching CPython semantics.
* Python exceptions (`KeyError`, `IndexError`, `ValueError`, ...) are the
  `Except String` error case; the message text is not part of the model.
* Python `float` payloads are embedded as exact rationals `ℚ`; the claims
  under verification treat arithmetic exactly (binary64 rounding is out of
  scope, and the one constant involved, `0.5`, is exact in binary64).
* Tensors are modelled at ranks 1 and 2 (`TVal`), which is what the verified
  claims exercise; runtime kernels outside that fragment evaluate to `none`.
-/

deriving instance DecidableEq for Except

namespace OnnxTF

/-- A Python `dict` keyed by strings: insertion-ordered association list. -/
abbrev PyDict (α : Type) := List (String × α)

/-- Dictionary lookup: value of the first (hence, with unique keys, only)
entry with the given key. -/
def lookupD {α : Type} (d : PyDict α) (k : String) : Option α :=
  (d.find? (fun p => p.1 = k)).map Prod.snd

/-- First-some choice on options (Python's "earlier match wins"). -/
def optOr {α : Type} : Option α → Option α → Option α
  | some v, _ => some v
  | none, b => b

/-- Python `d[k] = v`: replace the value in place if `k` is present
(CPython keeps the original insertion position), otherwise append. -/
def dictInsert {α : Type} (d : PyDict α) (k : String) (v : α) : PyDict α :=
  if d.any (fun p => p.1 = k) then
    d.map (fun p => if p.1 = k then (k, v) else p)
  else
    d ++ [(k, v)]

/-- Python `dict(pairs)`: sequential insertion, later pairs overwrite. -/
def dictOfList {α : Type} (l : List (String × α)) : PyDict α :=
  l.foldl (fun d p => dictInsert d p.1 p.2) []

/-- Traverse a list with a fallible (`Option`) function, as a Python list
comprehension whose body may fail. -/
def mapO {α β : Type} (f : α → Option β) : List α → Option (List β)
  | [] => some []
  | a :: l =>
    match f a with
    | none => none
    | some b =>
      match mapO f l with
      | none => none
      | some bs => some (b :: bs)

/-- Traverse a list with an exception-raising function: the first raised
exception propagates, as in a Python loop / comprehension. -/
def mapE {α β : Type} (f : α → Except String β) : List α → Except String (List β)
  | [] => .ok []
  | a :: l =>
    match f a with
    | .error e => .error e
    | .ok b =>
      match mapE f l with
      | .error e => .error e
      | .ok bs => .ok (b :: bs)

theorem optOr_none_left {α : Type} (b : Option α) : optOr none b = b := rfl

theorem optOr_assoc {α : Type} (a b c : Option α) :
    optOr (optOr a b) c = optOr a (optOr b c) := by
  cases a <;> rfl

theorem lookupD_nil {α : Type} (k : String) : lookupD ([] : PyDict α) k = none := rfl

theorem lookupD_cons {α : Type} (p : String × α) (d : PyDict α) (k : String) :
    lookupD (p :: d) k = if p.1 = k then some p.2 else lookupD d k := by
  simp only [lookupD, List.find?]
  by_cases h : p.1 = k
  · simp [h]
  · simp [h]

theorem lookupD_append {α : Type} (d₁ d₂ : PyDict α) (k : String) :
    lookupD (d₁ ++ d₂) k = optOr (lookupD d₁ k) (lookupD d₂ k) := by
  induction d₁ with
  | nil => simp [lookupD_nil, optOr_none_left]
  | cons p d ih =>
    rw [List.cons_append, lookupD_cons, lookupD_cons]
    by_cases h : p.1 = k
    · simp [h, optOr]
    · simp [h, ih]

/-- Replacing the entries keyed `k` does not affect lookups at other keys. -/
theorem lookupD_map_replace {α : Type} (d : PyDict α) (k k' : String) (v : α)
    (hne : k' ≠ k) :
    lookupD (d.map (fun p => if p.1 = k then (k, v) else p)) k' = lookupD d k' := by
  induction d with
  | nil => rfl
  | cons p d ih =>
    rw [List.map_cons, lookupD_cons, lookupD_cons]
    by_cases h : p.1 = k
    · have h1 : (k, v).1 = k' ↔ False := by simp [Ne.symm hne]
      simp only [if_pos h, h1, if_false, ih]
      rw [if_neg (by rw [h]; exact Ne.symm hne)]
    · simp only [if_neg h, ih]

theorem dictInsert_cons_ne {α : Type} (p : String × α) (d : PyDict α) (k : String)
    (v : α) (h : ¬ p.1 = k) : dictInsert (p :: d) k v = p :: dictInsert d k v := by
  unfold dictInsert
  have hany : (p :: d).any (fun q => q.1 = k) = d.any (fun q => q.1 = k) := by
    simp [h]
  rw [hany]
  cases hd : d.any (fun q => q.1 = k)
  · simp
  · simp [h]

theorem dictInsert_cons_eq {α : Type} (p : String × α) (d : PyDict α) (k : String)
    (v : α) (h : p.1 = k) :
    dictInsert (p :: d) k v =
      (k, v) :: d.map (fun q => if q.1 = k then (k, v) else q) := by
  unfold dictInsert
  have hany : (p :: d).any (fun q => q.1 = k) = true := by simp [h]
  rw [hany]
  simp [h]

theorem lookupD_dictInsert {α : Type} (d : PyDict α) (k k' : String) (v : α) :
    lookupD (dictInsert d k v) k' = if k' = k then some v else lookupD d k' := by
  induction d with
  | nil =>
    have h0 : dictInsert ([] : PyDict α) k v = [(k, v)] := rfl
    rw [h0, lookupD_cons, lookupD_nil]
    by_cases h : k' = k
    · subst h; simp
    · rw [if_neg h, if_neg (fun hh : (k, v).1 = k' => h hh.symm)]
  | cons p d ih =>
    by_cases hp : p.1 = k
    · rw [dictInsert_cons_eq p d k v hp, lookupD_cons, lookupD_cons]
      by_cases hk : k' = k
      · simp [hk]
      · have h1 : ¬ (k, v).1 = k' := fun hh => hk hh.symm
        have h2 : ¬ p.1 = k' := fun hh => hk (hp.symm.trans hh).symm
        rw [if_neg h1, if_neg hk, lookupD_map_replace d k k' v hk, if_neg h2]
    · rw [dictInsert_cons_ne p d k v hp, lookupD_cons, lookupD_cons, ih]
      by_cases hk : k' = k
      · have h2 : ¬ p.1 = k' := fun hh => hp (hh.trans hk)
        rw [if_neg h2, if_pos hk, if_pos hk]
      · simp only [if_neg hk]

/-- The payload of an ONNX `TensorProto` attribute.  `convertAttributeProto`
returns it "as the straight proto", so the model only needs an opaque record
carrying the data; no operation in `backend.py` inspects it. -/
structure TensorP where
  dims : List Nat
  raw_data : List Nat
deriving DecidableEq

/-- The Python object `convertAttributeProto` produces: one of the seven
populated-field cases (scalar `f`/`i`/`s`, embedded tensor `t`, or the
repeated fields returned as Python lists). -/
inductive AttrValue where
  | f (v : ℚ)
  | i (v : Int)
  | s (v : String)
  | t (v : TensorP)
  | floats (v : List ℚ)
  | ints (v : List Int)
  | strings (v : List String)
deriving DecidableEq

/-- `onnx_pb2.AttributeProto`, restricted to the fields `backend.py` reads:
the name, the four singular fields with their presence bits (`HasField`),
and the three repeated fields. -/
structure AttributeProto where
  name : String := ""
  f : Option ℚ := none
  i : Option Int := none
  s : Option String := none
  t : Option TensorP := none
  floats : List ℚ := []
  ints : List Int := []
  strings : List String := []
deriving DecidableEq

/-- `convertAttributeProto`: first populated singular field in the order
`f`, `i`, `s`, `t`, then the first non-empty repeated field in the order
`floats`, `ints`, `strings`; `ValueError` otherwise. -/
def convertAttributeProto (onnx_arg : AttributeProto) : Except String AttrValue :=
  match onnx_arg.f with
  | some v => .ok (.f v)
  | none =>
  match onnx_arg.i with
  | some v => .ok (.i v)
  | none =>
  match onnx_arg.s with
  | some v => .ok (.s v)
  | none =>
  match onnx_arg.t with
  | some v => .ok (.t v)
  | none =>
  if onnx_arg.floats ≠ [] then .ok (.floats onnx_arg.floats)
  else if onnx_arg.ints ≠ [] then .ok (.ints onnx_arg.ints)
  else if onnx_arg.strings ≠ [] then .ok (.strings onnx_arg.strings)
  else .error "Unsupported ONNX attribute"

/-- The loop body of `OnnxAttributes.from_onnx`: `d[arg.name] =
convertAttributeProto(arg)` over the argument list, propagating the first
exception. -/
def OnnxAttributes.from_onnx_go (d : PyDict AttrValue) :
    List AttributeProto → Except String (PyDict AttrValue)
  | [] => .ok d
  | a :: rest =>
    match convertAttributeProto a with
    | .error e => .error e
    | .ok v => OnnxAttributes.from_onnx_go (dictInsert d a.name v) rest

/-- `OnnxAttributes.from_onnx`: build the attribute dictionary from the
node's `AttributeProto` list. -/
def OnnxAttributes.from_onnx (args : List AttributeProto) :
    Except String (PyDict AttrValue) :=
  OnnxAttributes.from_onnx_go [] args

/-- `onnx_pb2.NodeProto`, restricted to the fields `backend.py` reads.
The proto field `attribute` is spelled `attribute_list` here because
`attribute` is a reserved word in Lean. -/
structure NodeProto where
  name : String := ""
  op_type : String := ""
  attribute_list : List AttributeProto := []
  input : List String := []
  output : List String := []
deriving DecidableEq

/-- `OnnxNode`: the backend's convenience form of a `NodeProto`. -/
structure OnnxNode where
  name : String := ""
  op_type : String := ""
  attrs : PyDict AttrValue := []
  consumed_inputs : Option AttrValue := none
  inputs : List String := []
  outputs : List String := []
deriving DecidableEq

/-- `OnnxNode.__init__`: convert the attribute list, then
`self.consumed_inputs = self.attrs.pop("consumed_inputs", None)`
(`pop` removes the key and returns its value, defaulting to `None`). -/
def OnnxNode.init (node : NodeProto) : Except String OnnxNode :=
  match OnnxAttributes.from_onnx node.attribute_list with
  | .error e => .error e
  | .ok attrs0 =>
    .ok { name := node.name
          op_type := node.op_type
          attrs := attrs0.filter (fun p => p.1 ≠ "consumed_inputs")
          consumed_inputs := lookupD attrs0 "consumed_inputs"
          inputs := node.input
          outputs := node.output }

/-- The TensorFlow dtypes appearing in `tensor_type_to_tf_type`. -/
inductive TfType where
  | float32 | uint8 | int8 | uint16 | int16 | int32 | int64
  | boolT | float16 | float64 | complex64 | complex128
deriving DecidableEq

/-- `tensor_type_to_tf_type`: keys are the `TensorProto.DataType` enum values
(`FLOAT = 1`, ..., `COMPLEX128 = 15`); `STRING = 8`, `UINT32 = 12` and
`UINT64 = 13` are absent from the class dictionary. -/
def tensor_type_to_tf_type (n : Int) : Option TfType :=
  if n = 1 then some .float32
  else if n = 2 then some .uint8
  else if n = 3 then some .int8
  else if n = 4 then some .uint16
  else if n = 5 then some .int16
  else if n = 6 then some .int32
  else if n = 7 then some .int64
  else if n = 9 then some .boolT
  else if n = 10 then some .float16
  else if n = 11 then some .float64
  else if n = 14 then some .complex64
  else if n = 15 then some .complex128
  else none

/-- The TensorFlow functions that are values of `onnx_tf_op_map`. -/
inductive TfOp where
  | relu | pow | random_normal | random_uniform | reciprocal
  | reduce_logsumexp | reduce_max | reduce_mean | reduce_min
  | reduce_prod | reduce_sum | sigmoid | softmax | sqrt | squeeze
  | tanh | transpose
deriving DecidableEq

/-- `onnx_tf_op_map`: lowered ONNX operator name → TensorFlow function. -/
def onnx_tf_op_map (s : String) : Option TfOp :=
  if s = "relu" then some .relu
  else if s = "pow" then some .pow
  else if s = "random_normal" then some .random_normal
  else if s = "random_uniform" then some .random_uniform
  else if s = "reciprocal" then some .reciprocal
  else if s = "reduce_log_sum_exp" then some .reduce_logsumexp
  else if s = "reduce_max" then some .reduce_max
  else if s = "reduce_mean" then some .reduce_mean
  else if s = "reduce_min" then some .reduce_min
  else if s = "reduce_prod" then some .reduce_prod
  else if s = "reduce_sum" then some .reduce_sum
  else if s = "sigmoid" then some .sigmoid
  else if s = "softmax" then some .softmax
  else if s = "sqrt" then some .sqrt
  else if s = "squeeze" then some .squeeze
  else if s = "tanh" then some .tanh
  else if s = "transpose" then some .transpose
  else none

/-- `onnx_tf_attribute_map`: ONNX attribute name → TensorFlow keyword name. -/
def onnx_tf_attribute_map (s : String) : Option String :=
  if s = "scale" then some "stddev"
  else if s = "high" then some "maxval"
  else if s = "low" then some "minval"
  else if s = "axes" then some "axis"
  else if s = "keepdims" then some "keep_dims"
  else if s = "axis" then some "dim"
  else none

/-- The attribute-name substitution `handle_trivial` applies: the mapped
TensorFlow name when the ONNX name is a key of `onnx_tf_attribute_map`,
the identity otherwise. -/
def renameAttr (s : String) : String :=
  (onnx_tf_attribute_map s).getD s

/-- Python truthiness `bool(x)` of a converted attribute value: zero numbers,
empty byte strings and empty lists are falsy; a protobuf message object
(no `__bool__`) is truthy. -/
def pyTruthy : AttrValue → Bool
  | .f v => v ≠ 0
  | .i v => v ≠ 0
  | .s v => v ≠ ""
  | .t _ => true
  | .floats v => v ≠ []
  | .ints v => v ≠ []
  | .strings v => v ≠ []

/-- The Python dict lookup `tensor_type_to_tf_type[x]` on an attribute value:
integer keys hit the table directly; a float key equal to an integer hits the
same entry (CPython hashes `7.0` like `7`); everything else raises
(`KeyError`/`TypeError`). -/
def dtypeLookup : AttrValue → Option TfType
  | .i n => tensor_type_to_tf_type n
  | .f q => if q.den = 1 then tensor_type_to_tf_type q.num else none
  | _ => none

/-- A value passed as a TensorFlow keyword argument by `handle_trivial`:
either the converted ONNX attribute unchanged, or the result of one of the
two `attr_translator` coercions. -/
inductive PyVal where
  | ofAttr (v : AttrValue)
  | tfType (t : TfType)
  | pyBool (b : Bool)
deriving DecidableEq

/-- The per-attribute value translation of `handle_trivial`:
`attr_translator[x](cls, node.attrs[x]) if x in attr_translator else
node.attrs[x]`, with `attr_translator = {"dtype": tensor_type_to_tf_type
lookup, "keepdims": bool}`. -/
def translateAttr (k : String) (v : AttrValue) : Except String PyVal :=
  if k = "dtype" then
    match dtypeLookup v with
    | some ty => .ok (.tfType ty)
    | none => .error "KeyError"
  else if k = "keepdims" then .ok (.pyBool (pyTruthy v))
  else .ok (.ofAttr v)

/-- One step of the attribute-translation comprehension: translate the value,
keep the original name. -/
def trPair (p : String × AttrValue) : Except String (String × PyVal) :=
  match translateAttr p.1 p.2 with
  | .error e => .error e
  | .ok v => .ok (p.1, v)

/-- ASCII upper-case test, the regex class `[A-Z]` of `op_name_to_lower`. -/
def isUpperA (c : Char) : Bool :=
  65 ≤ c.toNat && c.toNat ≤ 90

/-- `str.lower()` on the characters produced here: ASCII letters are
lowered, everything else kept (operator names are ASCII). -/
def toLowerA (c : Char) : Char :=
  if isUpperA c then Char.ofNat (c.toNat + 32) else c

/-- The effect of `re.sub('(?<!^)(?=[A-Z])', '_', ·)` on the characters after
the first: an underscore is inserted before every ASCII upper-case letter. -/
def underscoreChars : List Char → List Char
  | [] => []
  | c :: cs => (if isUpperA c then ['_', c] else [c]) ++ underscoreChars cs

/-- The character-level body of `op_name_to_lower`: underscore insertion
(skipping position 0, the regex's `(?<!^)`) followed by lower-casing. -/
def op_lower_chars (l : List Char) : List Char :=
  (match l with
    | [] => []
    | c :: cs => c :: underscoreChars cs).map toLowerA

/-- `op_name_to_lower`: insert `_` before each upper-case letter that is not
at the start of the string (`re.sub('(?<!^)(?=[A-Z])', '_', name)`), then
lower-case the result (`.lower()`). -/
def op_name_to_lower (name : String) : String :=
  String.mk (op_lower_chars name.data)

/-- Symbolic TensorFlow graph nodes, one constructor per TensorFlow call the
handlers emit.  `app` is the generic invocation `op(*inputs, **attrs)` built
by `handle_trivial`; `mulConst` is multiplication by a Python float literal
(the `* 0.5` of `handle_p_relu`); `reduce_sum0` is `tf.reduce_sum(·, axis=0)`;
`slice3` is `tf.slice(x, begin, size)`; `constOf` is `tf.constant` of a raw
attribute value. -/
inductive TfExpr where
  | const (t : List ℚ)
  | constOf (v : AttrValue)
  | app (op : TfOp) (inputs : List TfExpr) (attrs : PyDict PyVal)
  | relu (x : TfExpr)
  | selu (x : TfExpr)
  | add (x y : TfExpr)
  | sub (x y : TfExpr)
  | mul (x y : TfExpr)
  | mulConst (x : TfExpr) (c : ℚ)
  | absE (x : TfExpr)
  | shape (x : TfExpr)
  | rank (x : TfExpr)
  | reshape (x sh : TfExpr)
  | expand_dims (x : TfExpr) (axis : Int)
  | scatter_nd (indices updates sh : TfExpr)
  | slice3 (x st sz : TfExpr)
  | pad (x : TfExpr) (paddings : List (Int × Int)) (mode value : AttrValue)
  | random_normal (sh : TfExpr) (mean stddev : AttrValue) (dtype : TfType)
      (seed : Option AttrValue)
  | random_uniform (sh : TfExpr) (minval maxval : AttrValue) (dtype : TfType)
      (seed : Option AttrValue)
  | split (x sp : TfExpr) (axis : AttrValue)
  | stack (xs : List TfExpr)
  | reduce_sum0 (x : TfExpr)

/-- A concrete tensor value: rank 1 (a vector of rationals) or rank 2
(the result of `tf.stack` on vectors). -/
inductive TVal where
  | r1 (v : List ℚ)
  | r2 (v : List (List ℚ))
deriving DecidableEq

/-- The tensor held by a `tf.constant` leaf, if the expression is one. -/
def constVal : TfExpr → Option (List ℚ)
  | .const t => some t
  | _ => none

/-- Pointwise application on a rank-1 operand. -/
def r1map (g : ℚ → ℚ) : Option TVal → Option TVal
  | some (.r1 v) => some (.r1 (v.map g))
  | _ => none

/-- Pointwise combination of two rank-1 operands of equal shape. -/
def r1zip (g : ℚ → ℚ → ℚ) : Option TVal → Option TVal → Option TVal
  | some (.r1 a), some (.r1 b) =>
    if a.length = b.length then some (.r1 (List.zipWith g a b)) else none
  | _, _ => none

/-- Partial semantics of `sess.run` on the expressions the handlers build:
exact arithmetic on rank-1 constants, `tf.stack` of constant vectors of equal
length, and `tf.reduce_sum(axis=0)` of a stack.  Kernels outside this
fragment (random ops, `pad`, `slice`, the generic `app` invocations, ...)
are not modelled and evaluate to `none`. -/
def evalE : TfExpr → Option TVal
  | .const t => some (.r1 t)
  | .relu x => r1map (fun q => max q 0) (evalE x)
  | .absE x => r1map (fun q => |q|) (evalE x)
  | .add x y => r1zip (· + ·) (evalE x) (evalE y)
  | .sub x y => r1zip (· - ·) (evalE x) (evalE y)
  | .mul x y => r1zip (· * ·) (evalE x) (evalE y)
  | .mulConst x c => r1map (· * c) (evalE x)
  | .stack xs =>
    match mapO constVal xs with
    | none => none
    | some [] => none
    | some (t :: ts) =>
      if ts.all (fun u => u.length = t.length) then some (.r2 (t :: ts)) else none
  | .reduce_sum0 x =>
    match evalE x with
    | some (.r2 (r :: rows)) =>
      some (.r1 (rows.foldl (fun acc s => List.zipWith (· + ·) acc s) r))
    | _ => none
  | _ => none

/-- `input_dict[name]`, raising `KeyError` when absent. -/
def fetchByName (input_dict : PyDict TfExpr) (nm : String) : Except String TfExpr :=
  match lookupD input_dict nm with
  | some t => .ok t
  | none => .error "KeyError"

/-- `input_dict[node.inputs[i]]`: list indexing (`IndexError`) followed by
dictionary lookup (`KeyError`). -/
def fetchInput (input_dict : PyDict TfExpr) (inputs : List String) (i : Nat) :
    Except String TfExpr :=
  match inputs.get? i with
  | none => .error "IndexError"
  | some nm => fetchByName input_dict nm

/-- `node.attrs[k]`, raising `KeyError` when absent. -/
def fetchAttr (node : OnnxNode) (k : String) : Except String AttrValue :=
  match lookupD node.attrs k with
  | some v => .ok v
  | none => .error "KeyError"

/-- `handle_trivial`: translate each attribute value through
`attr_translator`, rename attribute keys through `onnx_tf_attribute_map`,
fetch the inputs in order, and emit the single call
`onnx_tf_op_map[lowered](*inputs, **attrs)`. -/
def handle_trivial (node : OnnxNode) (input_dict : PyDict TfExpr) :
    Except String (List TfExpr) :=
  match mapE trPair node.attrs with
  | .error e => .error e
  | .ok attrs =>
    let attrs2 := dictOfList (attrs.map (fun p => (renameAttr p.1, p.2)))
    match mapE (fetchByName input_dict) node.inputs with
    | .error e => .error e
    | .ok inputs =>
      match onnx_tf_op_map (op_name_to_lower node.op_type) with
      | some op => .ok [TfExpr.app op inputs attrs2]
      | none => .error "KeyError"

/-- `handle_p_relu`: `relu(x) + slope * (x - abs(x)) * 0.5`. -/
def handle_p_relu (node : OnnxNode) (input_dict : PyDict TfExpr) :
    Except String (List TfExpr) :=
  match fetchInput input_dict node.inputs 0 with
  | .error e => .error e
  | .ok x =>
  match fetchInput input_dict node.inputs 1 with
  | .error e => .error e
  | .ok slope =>
    .ok [TfExpr.add (.relu x) (.mulConst (.mul slope (.sub x (.absE x))) (1 / 2))]

/-- Truncation toward zero, `numpy.ndarray.astype` from float to int. -/
def ratTruncToInt (q : ℚ) : Int :=
  if 0 ≤ q then ⌊q⌋ else -⌊-q⌋

/-- Wrap-around conversion to `int32` (`astype(np.int32)`). -/
def toInt32 (n : Int) : Int :=
  (n + 2 ^ 31) % 2 ^ 32 - 2 ^ 31

/-- The elements of `np.array(paddings)` as integers: a list of ints is kept,
a list of floats is truncated; scalars and strings fail (`len`/`reshape`). -/
def intListOfAttr : AttrValue → Option (List Int)
  | .ints l => some l
  | .floats l => some (l.map ratTruncToInt)
  | _ => none

/-- `.reshape([num_dim, 2])` with `num_dim = len(paddings) // 2`: pairs up
consecutive elements, failing on odd length. -/
def chunkPairs : List Int → Option (List (Int × Int))
  | [] => some []
  | [_] => none
  | a :: b :: rest =>
    match chunkPairs rest with
    | none => none
    | some ps => some ((a, b) :: ps)

/-- `handle_pad`: fetch `mode`, `value` and `paddings`, reshape the paddings
to an `[num_dim, 2]` `int32` array, and emit `tf.pad`. -/
def handle_pad (node : OnnxNode) (input_dict : PyDict TfExpr) :
    Except String (List TfExpr) :=
  match fetchAttr node "mode" with
  | .error e => .error e
  | .ok mode =>
  match fetchAttr node "value" with
  | .error e => .error e
  | .ok value =>
  match fetchAttr node "paddings" with
  | .error e => .error e
  | .ok ps =>
  match intListOfAttr ps with
  | none => .error "TypeError"
  | some l =>
  match chunkPairs (l.map toInt32) with
  | none => .error "ValueError"
  | some pairs =>
  match fetchInput input_dict node.inputs 0 with
  | .error e => .error e
  | .ok x => .ok [TfExpr.pad x pairs mode value]

/-- `handle_random_normal_like`: shape of the first input, `mean`, `scale`
(as `stddev`), `dtype` through `tensor_type_to_tf_type`, optional `seed`. -/
def handle_random_normal_like (node : OnnxNode) (input_dict : PyDict TfExpr) :
    Except String (List TfExpr) :=
  match fetchInput input_dict node.inputs 0 with
  | .error e => .error e
  | .ok x =>
  match fetchAttr node "mean" with
  | .error e => .error e
  | .ok mean =>
  match fetchAttr node "scale" with
  | .error e => .error e
  | .ok scale =>
  match fetchAttr node "dtype" with
  | .error e => .error e
  | .ok dt =>
  match dtypeLookup dt with
  | none => .error "KeyError"
  | some ty =>
    .ok [TfExpr.random_normal (.shape x) mean scale ty (lookupD node.attrs "seed")]

/-- `handle_random_uniform_like`: shape of the first input, `low` (as
`minval`), `high` (as `maxval`), `dtype`, optional `seed`. -/
def handle_random_uniform_like (node : OnnxNode) (input_dict : PyDict TfExpr) :
    Except String (List TfExpr) :=
  match fetchInput input_dict node.inputs 0 with
  | .error e => .error e
  | .ok x =>
  match fetchAttr node "low" with
  | .error e => .error e
  | .ok low =>
  match fetchAttr node "high" with
  | .error e => .error e
  | .ok high =>
  match fetchAttr node "dtype" with
  | .error e => .error e
  | .ok dt =>
  match dtypeLookup dt with
  | none => .error "KeyError"
  | some ty =>
    .ok [TfExpr.random_uniform (.shape x) low high ty (lookupD node.attrs "seed")]

/-- `handle_reshape`: `tf.reshape(tensor, tf.constant(attrs["shape"]))`. -/
def handle_reshape (node : OnnxNode) (input_dict : PyDict TfExpr) :
    Except String (List TfExpr) :=
  match fetchInput input_dict node.inputs 0 with
  | .error e => .error e
  | .ok tensor =>
  match fetchAttr node "shape" with
  | .error e => .error e
  | .ok sh => .ok [TfExpr.reshape tensor (.constOf sh)]

/-- `handle_selu` (emits a compatibility warning, then `tf.nn.selu`). -/
def handle_selu (node : OnnxNode) (input_dict : PyDict TfExpr) :
    Except String (List TfExpr) :=
  match fetchInput input_dict node.inputs 0 with
  | .error e => .error e
  | .ok x => .ok [TfExpr.selu x]

/-- `handle_slice`: scatter the begin/end indices of the sliced axes into
rank-length vectors and emit `tf.slice(x, begin, end - begin)`. -/
def handle_slice (node : OnnxNode) (input_dict : PyDict TfExpr) :
    Except String (List TfExpr) :=
  match fetchInput input_dict node.inputs 0 with
  | .error e => .error e
  | .ok x =>
  match fetchInput input_dict node.inputs 1 with
  | .error e => .error e
  | .ok i1 =>
  match fetchInput input_dict node.inputs 2 with
  | .error e => .error e
  | .ok i2 =>
  match fetchInput input_dict node.inputs 3 with
  | .error e => .error e
  | .ok i3 =>
    let sh := TfExpr.reshape (.rank x) (.constOf (.ints [1]))
    let indices := TfExpr.expand_dims i1 (-1)
    let first := TfExpr.scatter_nd indices i2 sh
    let last := TfExpr.scatter_nd indices i3 sh
    .ok [TfExpr.slice3 x first (.sub last first)]

/-- `handle_split`: the split sizes come from the `split` attribute if
present, otherwise from the second input; then `axis`, then `tf.split`. -/
def handle_split (node : OnnxNode) (input_dict : PyDict TfExpr) :
    Except String (List TfExpr) :=
  match (match lookupD node.attrs "split" with
         | some sv => Except.ok (TfExpr.constOf sv)
         | none => fetchInput input_dict node.inputs 1) with
  | .error e => .error e
  | .ok sp =>
  match fetchAttr node "axis" with
  | .error e => .error e
  | .ok ax =>
  match fetchInput input_dict node.inputs 0 with
  | .error e => .error e
  | .ok x => .ok [TfExpr.split x sp ax]

/-- `handle_sub`: reads the mandatory `broadcast` attribute (possibly
warning), warns on `axis`, and emits `tf.subtract(x, y)`. -/
def handle_sub (node : OnnxNode) (input_dict : PyDict TfExpr) :
    Except String (List TfExpr) :=
  match fetchInput input_dict node.inputs 0 with
  | .error e => .error e
  | .ok x =>
  match fetchInput input_dict node.inputs 1 with
  | .error e => .error e
  | .ok y =>
  match fetchAttr node "broadcast" with
  | .error e => .error e
  | .ok _ => .ok [TfExpr.sub x y]

/-- `handle_sum`: `tf.reduce_sum(tf.stack(values), axis=0)` over the looked-up
input tensors. -/
def handle_sum (node : OnnxNode) (input_dict : PyDict TfExpr) :
    Except String (List TfExpr) :=
  match mapE (fetchByName input_dict) node.inputs with
  | .error e => .error e
  | .ok values => .ok [TfExpr.reduce_sum0 (.stack values)]

/-- The type of a `handle_*` translation method. -/
abbrev Handler := OnnxNode → PyDict TfExpr → Except String (List TfExpr)

/-- `getattr(cls, "handle_" + lowered)` guarded by `handler_name in dir(cls)`:
the class's `handle_*` methods by name. -/
def getHandler (s : String) : Option Handler :=
  if s = "handle_trivial" then some handle_trivial
  else if s = "handle_p_relu" then some handle_p_relu
  else if s = "handle_pad" then some handle_pad
  else if s = "handle_random_normal_like" then some handle_random_normal_like
  else if s = "handle_random_uniform_like" then some handle_random_uniform_like
  else if s = "handle_reshape" then some handle_reshape
  else if s = "handle_selu" then some handle_selu
  else if s = "handle_slice" then some handle_slice
  else if s = "handle_split" then some handle_split
  else if s = "handle_sub" then some handle_sub
  else if s = "handle_sum" then some handle_sum
  else none

/-- `_onnx_node_to_tensorflow_op`: `handle_trivial` when the lowered name is
a key of `onnx_tf_op_map`, else the specialized `handle_<lowered>` method when
one exists, else Python's implicit `return None` (`.ok none`); exceptions
raised by the selected rule propagate (`.error`). -/
def onnx_node_to_tensorflow_op (node : OnnxNode) (input_dict : PyDict TfExpr) :
    Except String (Option (List TfExpr)) :=
  let lowered := op_name_to_lower node.op_type
  if (onnx_tf_op_map lowered).isSome then
    match handle_trivial node input_dict with
    | .error e => .error e
    | .ok l => .ok (some l)
  else
    match getHandler ("handle_" ++ lowered) with
    | some h =>
      match h node input_dict with
      | .error e => .error e
      | .ok l => .ok (some l)
    | none => .ok none

/-- `sess.run(op)`: evaluate one graph node, failing when the kernel is
outside the modelled fragment. -/
def sessRun (op : TfExpr) : Except String TVal :=
  match evalE op with
  | some v => .ok v
  | none => .error "session"

/-- `run_node`: validate via the base class (external, not modelled), build
`OnnxNode`, wrap the inputs as `tf.constant` tensors keyed by input name,
translate the node, run every produced op in a session, and return the
outputs as the named tuple `Outputs` — modelled as the list of (output name,
value) pairs in output order.  The `isinstance(inputs, dict)` branch is for
dict-shaped inputs; list-shaped inputs (as here) go through the
`assert len(node.inputs) == len(inputs)` branch and `dict(zip(...))`. -/
def run_node (nodeP : NodeProto) (inputs : List (List ℚ)) :
    Except String (List (String × TVal)) :=
  match OnnxNode.init nodeP with
  | .error e => .error e
  | .ok node =>
    if node.inputs.length = inputs.length then
      let input_dict := dictOfList (List.zip node.inputs (inputs.map TfExpr.const))
      match onnx_node_to_tensorflow_op node input_dict with
      | .error e => .error e
      | .ok none => .error "TypeError"
      | .ok (some ops) =>
        match mapE sessRun ops with
        | .error e => .error e
        | .ok output_vals =>
          if node.outputs.length = output_vals.length then
            .ok (List.zip node.outputs output_vals)
          else .error "TypeError"
    else .error "AssertionError"

/-! ## Behaviour of `convertAttributeProto` -/

theorem convert_of_f (a : AttributeProto) (v : ℚ) (h : a.f = some v) :
    convertAttributeProto a = .ok (.f v) := by
  unfold convertAttributeProto
  rw [h]

theorem convert_of_i (a : AttributeProto) (v : Int) (h1 : a.f = none)
    (h2 : a.i = some v) : convertAttributeProto a = .ok (.i v) := by
  unfold convertAttributeProto
  rw [h1, h2]

theorem convert_of_s (a : AttributeProto) (v : String) (h1 : a.f = none)
    (h2 : a.i = none) (h3 : a.s = some v) : convertAttributeProto a = .ok (.s v) := by
  unfold convertAttributeProto
  rw [h1, h2, h3]

theorem convert_of_t (a : AttributeProto) (v : TensorP) (h1 : a.f = none)
    (h2 : a.i = none) (h3 : a.s = none) (h4 : a.t = some v) :
    convertAttributeProto a = .ok (.t v) := by
  unfold convertAttributeProto
  rw [h1, h2, h3, h4]

theorem convert_of_floats (a : AttributeProto) (h1 : a.f = none) (h2 : a.i = none)
    (h3 : a.s = none) (h4 : a.t = none) (h5 : a.floats ≠ []) :
    convertAttributeProto a = .ok (.floats a.floats) := by
  unfold convertAttributeProto
  rw [h1, h2, h3, h4, if_pos h5]

theorem convert_of_ints (a : AttributeProto) (h1 : a.f = none) (h2 : a.i = none)
    (h3 : a.s = none) (h4 : a.t = none) (h5 : a.floats = []) (h6 : a.ints ≠ []) :
    convertAttributeProto a = .ok (.ints a.ints) := by
  unfold convertAttributeProto
  rw [h1, h2, h3, h4, if_neg (by simp [h5]), if_pos h6]

theorem convert_of_strings (a : AttributeProto) (h1 : a.f = none) (h2 : a.i = none)
    (h3 : a.s = none) (h4 : a.t = none) (h5 : a.floats = []) (h6 : a.ints = [])
    (h7 : a.strings ≠ []) : convertAttributeProto a = .ok (.strings a.strings) := by
  unfold convertAttributeProto
  rw [h1, h2, h3, h4, if_neg (by simp [h5]), if_neg (by simp [h6]), if_pos h7]

theorem convert_of_empty (a : AttributeProto) (h1 : a.f = none) (h2 : a.i = none)
    (h3 : a.s = none) (h4 : a.t = none) (h5 : a.floats = []) (h6 : a.ints = [])
    (h7 : a.strings = []) :
    convertAttributeProto a = .error "Unsupported ONNX attribute" := by
  unfold convertAttributeProto
  rw [h1, h2, h3, h4, if_neg (by simp [h5]), if_neg (by simp [h6]),
    if_neg (by simp [h7])]

/-- C3: `convertAttributeProto` returns the value of the first populated
field checked in the fixed order `f`, `i`, `s`, `t` (the tensor as the raw
proto), then the repeated fields `floats`, `ints`, `strings` (as lists), and
raises `ValueError` if and only if none of the seven fields is populated. -/
theorem convertAttributeProto_spec :
    (∀ a : AttributeProto,
      (∃ e, convertAttributeProto a = .error e) ↔
        (a.f = none ∧ a.i = none ∧ a.s = none ∧ a.t = none ∧
         a.floats = [] ∧ a.ints = [] ∧ a.strings = [])) ∧
    (∀ a v, a.f = some v → convertAttributeProto a = .ok (.f v)) ∧
    (∀ a v, a.f = none → a.i = some v → convertAttributeProto a = .ok (.i v)) ∧
    (∀ a v, a.f = none → a.i = none → a.s = some v →
      convertAttributeProto a = .ok (.s v)) ∧
    (∀ a v, a.f = none → a.i = none → a.s = none → a.t = some v →
      convertAttributeProto a = .ok (.t v)) ∧
    (∀ a, a.f = none → a.i = none → a.s = none → a.t = none → a.floats ≠ [] →
      convertAttributeProto a = .ok (.floats a.floats)) ∧
    (∀ a, a.f = none → a.i = none → a.s = none → a.t = none → a.floats = [] →
      a.ints ≠ [] → convertAttributeProto a = .ok (.ints a.ints)) ∧
    (∀ a, a.f = none → a.i = none → a.s = none → a.t = none → a.floats = [] →
      a.ints = [] → a.strings ≠ [] →
      convertAttributeProto a = .ok (.strings a.strings)) := by
  refine ⟨?_, convert_of_f, convert_of_i, convert_of_s, convert_of_t,
    convert_of_floats, convert_of_ints, convert_of_strings⟩
  intro a
  constructor
  · rintro ⟨e, he⟩
    cases h1 : a.f with
    | some v => rw [convert_of_f a v h1] at he; exact absurd he (by simp)
    | none =>
    cases h2 : a.i with
    | some v => rw [convert_of_i a v h1 h2] at he; exact absurd he (by simp)
    | none =>
    cases h3 : a.s with
    | some v => rw [convert_of_s a v h1 h2 h3] at he; exact absurd he (by simp)
    | none =>
    cases h4 : a.t with
    | some v => rw [convert_of_t a v h1 h2 h3 h4] at he; exact absurd he (by simp)
    | none =>
      by_cases h5 : a.floats = []
      · by_cases h6 : a.ints = []
        · by_cases h7 : a.strings = []
          · exact ⟨rfl, rfl, rfl, rfl, h5, h6, h7⟩
          · rw [convert_of_strings a h1 h2 h3 h4 h5 h6 h7] at he
            exact absurd he (by simp)
        · rw [convert_of_ints a h1 h2 h3 h4 h5 h6] at he
          exact absurd he (by simp)
      · rw [convert_of_floats a h1 h2 h3 h4 h5] at he
        exact absurd he (by simp)
  · rintro ⟨h1, h2, h3, h4, h5, h6, h7⟩
    exact ⟨_, convert_of_empty a h1 h2 h3 h4 h5 h6 h7⟩

/-- Witness for C3: a concrete attribute with only the `i` field populated is
converted to its integer payload by the `i` clause of the theorem. -/
theorem convertAttributeProto_spec_witness :
    convertAttributeProto { name := "axis", i := some 2 } = .ok (.i 2) :=
  convertAttributeProto_spec.2.2.1 { name := "axis", i := some 2 } 2 rfl rfl

/-! ## Behaviour of `op_name_to_lower` -/

theorem toNat_ofNat_small (n : Nat) (h : n < 55296) : (Char.ofNat n).toNat = n := by
  have hd : Char.ofNat n = Char.ofNatAux n (Or.inl h) := dif_pos (Or.inl h)
  rw [hd]
  rfl

theorem isUpperA_toLowerA (c : Char) : isUpperA (toLowerA c) = false := by
  unfold toLowerA
  by_cases h : isUpperA c
  · rw [if_pos h]
    unfold isUpperA at h ⊢
    rw [Bool.and_eq_true, decide_eq_true_iff, decide_eq_true_iff] at h
    have h32 : (Char.ofNat (c.toNat + 32)).toNat = c.toNat + 32 :=
      toNat_ofNat_small _ (by omega)
    rw [h32]
    simp only [Bool.and_eq_false_iff, decide_eq_false_iff_not]
    right
    omega
  · rw [if_neg h]
    exact Bool.eq_false_iff.mpr h

theorem toLowerA_of_not_upper (c : Char) (h : isUpperA c = false) :
    toLowerA c = c := by
  unfold toLowerA
  rw [h]
  rfl

theorem underscoreChars_of_lower (l : List Char)
    (h : ∀ c ∈ l, isUpperA c = false) : underscoreChars l = l := by
  induction l with
  | nil => rfl
  | cons c cs ih =>
    show (if isUpperA c then ['_', c] else [c]) ++ underscoreChars cs = c :: cs
    rw [h c (List.mem_cons_self c cs)]
    show c :: underscoreChars cs = c :: cs
    rw [ih (fun x hx => h x (List.mem_cons_of_mem c hx))]

theorem map_toLowerA_fixed (l : List Char)
    (h : ∀ c ∈ l, isUpperA c = false) : l.map toLowerA = l := by
  induction l with
  | nil => rfl
  | cons c cs ih =>
    rw [List.map_cons, toLowerA_of_not_upper c (h c (List.mem_cons_self c cs)),
      ih (fun x hx => h x (List.mem_cons_of_mem c hx))]

theorem op_lower_chars_idem (l : List Char) :
    op_lower_chars (op_lower_chars l) = op_lower_chars l := by
  have hall : ∀ x ∈ op_lower_chars l, isUpperA x = false := by
    intro x hx
    unfold op_lower_chars at hx
    rcases List.mem_map.mp hx with ⟨y, -, rfl⟩
    exact isUpperA_toLowerA y
  cases h : op_lower_chars l with
  | nil => rfl
  | cons c cs =>
    rw [h] at hall
    show (c :: underscoreChars cs).map toLowerA = c :: cs
    rw [underscoreChars_of_lower cs (fun x hx => hall x (List.mem_cons_of_mem c hx))]
    exact map_toLowerA_fixed (c :: cs) hall

/-- C5: `op_name_to_lower` inserts an underscore before each upper-case
letter that is not at the start and lower-cases the result
(`"ReduceLogSumExp"` becomes `"reduce_log_sum_exp"`), and it is idempotent:
applying it twice yields the same string as applying it once. -/
theorem op_name_to_lower_spec :
    op_name_to_lower "ReduceLogSumExp" = "reduce_log_sum_exp" ∧
    ∀ s : String, op_name_to_lower (op_name_to_lower s) = op_name_to_lower s := by
  refine ⟨by decide, fun s => ?_⟩
  exact congrArg String.mk (op_lower_chars_idem s.data)

/-! ## Dispatch: unsupported operators return `None` -/

/-- C8: a node whose lowered `op_type` is neither a key of `onnx_tf_op_map`
nor the suffix of an existing `handle_*` method makes
`_onnx_node_to_tensorflow_op` fall through both checks and return Python's
implicit `None` without raising. -/
theorem dispatch_unsupported_none (node : OnnxNode) (input_dict : PyDict TfExpr)
    (h1 : onnx_tf_op_map (op_name_to_lower node.op_type) = none)
    (h2 : getHandler ("handle_" ++ op_name_to_lower node.op_type) = none) :
    onnx_node_to_tensorflow_op node input_dict = .ok none := by
  simp only [onnx_node_to_tensorflow_op]
  rw [h1, h2]
  rfl

/-- Witness for C8: a `Conv` node (lowered: `"conv"`) has no map entry and no
`handle_conv` method, so dispatch returns `None`. -/
theorem dispatch_unsupported_none_witness :
    onnx_node_to_tensorflow_op { op_type := "Conv" } [] = .ok none :=
  dispatch_unsupported_none { op_type := "Conv" } [] rfl rfl

/-! ## Every translation rule emits exactly one operator invocation -/

theorem handle_trivial_len (node : OnnxNode) (d : PyDict TfExpr) (l : List TfExpr)
    (h : handle_trivial node d = .ok l) : l.length = 1 := by
  simp only [handle_trivial] at h
  repeat' split at h
  any_goals cases h
  all_goals rfl

theorem handle_p_relu_len (node : OnnxNode) (d : PyDict TfExpr) (l : List TfExpr)
    (h : handle_p_relu node d = .ok l) : l.length = 1 := by
  simp only [handle_p_relu] at h
  repeat' split at h
  any_goals cases h
  all_goals rfl

theorem handle_pad_len (node : OnnxNode) (d : PyDict TfExpr) (l : List TfExpr)
    (h : handle_pad node d = .ok l) : l.length = 1 := by
  simp only [handle_pad] at h
  repeat' split at h
  any_goals cases h
  all_goals rfl

theorem handle_random_normal_like_len (node : OnnxNode) (d : PyDict TfExpr)
    (l : List TfExpr) (h : handle_random_normal_like node d = .ok l) :
    l.length = 1 := by
  simp only [handle_random_normal_like] at h
  repeat' split at h
  any_goals cases h
  all_goals rfl

theorem handle_random_uniform_like_len (node : OnnxNode) (d : PyDict TfExpr)
    (l : List TfExpr) (h : handle_random_uniform_like node d = .ok l) :
    l.length = 1 := by
  simp only [handle_random_uniform_like] at h
  repeat' split at h
  any_goals cases h
  all_goals rfl

theorem handle_reshape_len (node : OnnxNode) (d : PyDict TfExpr) (l : List TfExpr)
    (h : handle_reshape node d = .ok l) : l.length = 1 := by
  simp only [handle_reshape] at h
  repeat' split at h
  any_goals cases h
  all_goals rfl

theorem handle_selu_len (node : OnnxNode) (d : PyDict TfExpr) (l : List TfExpr)
    (h : handle_selu node d = .ok l) : l.length = 1 := by
  simp only [handle_selu] at h
  repeat' split at h
  any_goals cases h
  all_goals rfl

theorem handle_slice_len (node : OnnxNode) (d : PyDict TfExpr) (l : List TfExpr)
    (h : handle_slice node d = .ok l) : l.length = 1 := by
  simp only [handle_slice] at h
  repeat' split at h
  any_goals cases h
  all_goals rfl

theorem handle_split_len (node : OnnxNode) (d : PyDict TfExpr) (l : List TfExpr)
    (h : handle_split node d = .ok l) : l.length = 1 := by
  simp only [handle_split] at h
  repeat' split at h
  any_goals cases h
  all_goals rfl

theorem handle_sub_len (node : OnnxNode) (d : PyDict TfExpr) (l : List TfExpr)
    (h : handle_sub node d = .ok l) : l.length = 1 := by
  simp only [handle_sub] at h
  repeat' split at h
  any_goals cases h
  all_goals rfl

theorem handle_sum_len (node : OnnxNode) (d : PyDict TfExpr) (l : List TfExpr)
    (h : handle_sum node d = .ok l) : l.length = 1 := by
  simp only [handle_sum] at h
  repeat' split at h
  any_goals cases h
  all_goals rfl

set_option maxHeartbeats 1600000 in
theorem getHandler_ok_length (s : String) (h : Handler) (hg : getHandler s = some h)
    (node : OnnxNode) (d : PyDict TfExpr) (l : List TfExpr)
    (hr : h node d = .ok l) : l.length = 1 := by
  unfold getHandler at hg
  repeat' split at hg
  any_goals exact Option.noConfusion hg
  all_goals injection hg with hg
  all_goals subst hg
  all_goals
    first
      | exact handle_trivial_len node d l hr
      | exact handle_p_relu_len node d l hr
      | exact handle_pad_len node d l hr
      | exact handle_random_normal_like_len node d l hr
      | exact handle_random_uniform_like_len node d l hr
      | exact handle_reshape_len node d l hr
      | exact handle_selu_len node d l hr
      | exact handle_slice_len node d l hr
      | exact handle_split_len node d l hr
      | exact handle_sub_len node d l hr
      | exact handle_sum_len node d l hr

/-- C1: dispatch selects `handle_trivial` whenever the lowered `op_type` is a
key of `onnx_tf_op_map` (this lookup takes precedence), otherwise the
`handle_<lowered>` method when one exists; every successfully produced result
is a list of one or more operator invocations. -/
theorem dispatch_rule_selection (node : OnnxNode) (input_dict : PyDict TfExpr) :
    (∀ op, onnx_tf_op_map (op_name_to_lower node.op_type) = some op →
      onnx_node_to_tensorflow_op node input_dict =
        Except.map some (handle_trivial node input_dict)) ∧
    (onnx_tf_op_map (op_name_to_lower node.op_type) = none →
      ∀ h, getHandler ("handle_" ++ op_name_to_lower node.op_type) = some h →
        onnx_node_to_tensorflow_op node input_dict =
          Except.map some (h node input_dict)) ∧
    (∀ l, onnx_node_to_tensorflow_op node input_dict = .ok (some l) →
      1 ≤ l.length) := by
  refine ⟨?_, ?_, ?_⟩
  · intro op hop
    have hs : (onnx_tf_op_map (op_name_to_lower node.op_type)).isSome = true := by
      rw [hop]; rfl
    simp only [onnx_node_to_tensorflow_op]
    rw [if_pos hs]
    cases hh : handle_trivial node input_dict with
    | error e => rfl
    | ok l => rfl
  · intro hnone h hh
    have hs : ¬ (onnx_tf_op_map (op_name_to_lower node.op_type)).isSome = true := by
      rw [hnone]
      exact Bool.false_ne_true
    simp only [onnx_node_to_tensorflow_op]
    rw [if_neg hs]
    simp only [hh]
    cases hr : h node input_dict with
    | error e => rfl
    | ok l => rfl
  · intro l hl
    simp only [onnx_node_to_tensorflow_op] at hl
    by_cases hs : (onnx_tf_op_map (op_name_to_lower node.op_type)).isSome = true
    · rw [if_pos hs] at hl
      cases hh : handle_trivial node input_dict with
      | error e => rw [hh] at hl; exact absurd hl (by simp)
      | ok l' =>
        rw [hh] at hl
        have hll : l' = l := by simpa using hl
        subst hll
        exact le_of_eq (handle_trivial_len node input_dict l' hh).symm
    · rw [if_neg hs] at hl
      cases hg : getHandler ("handle_" ++ op_name_to_lower node.op_type) with
      | none => simp only [hg] at hl; exact absurd hl (by simp)
      | some h =>
        simp only [hg] at hl
        cases hr : h node input_dict with
        | error e => rw [hr] at hl; exact absurd hl (by simp)
        | ok l' =>
          rw [hr] at hl
          have hll : l' = l := by simpa using hl
          subst hll
          exact le_of_eq (getHandler_ok_length _ h hg node input_dict l' hr).symm

/-- Witness for C1: a `Relu` node goes through the `onnx_tf_op_map` lookup to
`handle_trivial`, and the produced invocation list has length one. -/
theorem dispatch_rule_selection_witness :
    onnx_node_to_tensorflow_op { op_type := "Relu", inputs := ["x"] }
        [("x", TfExpr.const [1])] =
      Except.map some (handle_trivial { op_type := "Relu", inputs := ["x"] }
        [("x", TfExpr.const [1])]) ∧
    1 ≤ [TfExpr.app TfOp.relu [TfExpr.const [1]] []].length :=
  ⟨(dispatch_rule_selection { op_type := "Relu", inputs := ["x"] }
      [("x", TfExpr.const [1])]).1 TfOp.relu rfl,
   (dispatch_rule_selection { op_type := "Relu", inputs := ["x"] }
      [("x", TfExpr.const [1])]).2.2 [TfExpr.app TfOp.relu [TfExpr.const [1]] []] rfl⟩

/-! ## Attribute translation in `handle_trivial` -/

theorem dictOfList_go_lookup {α : Type} (l : List (String × α)) :
    ∀ (d : PyDict α) (k : String),
      lookupD (l.foldl (fun d p => dictInsert d p.1 p.2) d) k =
        optOr (lookupD l.reverse k) (lookupD d k) := by
  induction l with
  | nil =>
    intro d k
    rw [List.reverse_nil, lookupD_nil, optOr_none_left]
    rfl
  | cons p rest ih =>
    intro d k
    rw [List.foldl_cons, ih, List.reverse_cons, lookupD_append, optOr_assoc]
    congr 1
    rw [lookupD_dictInsert, lookupD_cons, lookupD_nil]
    by_cases h : k = p.1
    · rw [if_pos h, if_pos h.symm]
      rfl
    · rw [if_neg h, if_neg (fun hh => h hh.symm)]
      rfl

theorem lookupD_dictOfList {α : Type} (l : List (String × α)) (k : String) :
    lookupD (dictOfList l) k = lookupD l.reverse k := by
  unfold dictOfList
  rw [dictOfList_go_lookup l [] k, lookupD_nil]
  cases lookupD l.reverse k <;> rfl

theorem lookupD_eq_some_of_mem {α : Type} (l : List (String × α)) (k : String)
    (v : α) (hnd : (l.map Prod.fst).Nodup) (hm : (k, v) ∈ l) :
    lookupD l k = some v := by
  induction l with
  | nil => cases hm
  | cons p rest ih =>
    rw [lookupD_cons]
    rcases List.mem_cons.mp hm with heq | hm'
    · rw [← heq]
      simp
    · have hk : ¬ p.1 = k := by
        intro hpk
        have hmem : k ∈ rest.map Prod.fst := List.mem_map.mpr ⟨(k, v), hm', rfl⟩
        rw [List.map_cons, List.nodup_cons] at hnd
        exact hnd.1 (hpk ▸ hmem)
      rw [if_neg hk]
      rw [List.map_cons, List.nodup_cons] at hnd
      exact ih hnd.2 hm'

/-- Lookup in a Python `dict(pairs)` built from a duplicate-free pair list
finds the pair's value. -/
theorem lookupD_dictOfList_of_mem {α : Type} (l : List (String × α)) (k : String)
    (v : α) (hnd : (l.map Prod.fst).Nodup) (hm : (k, v) ∈ l) :
    lookupD (dictOfList l) k = some v := by
  rw [lookupD_dictOfList]
  exact lookupD_eq_some_of_mem l.reverse k v
    (by rw [List.map_reverse]; exact List.nodup_reverse.mpr hnd)
    (List.mem_reverse.mpr hm)

theorem trPair_ok (p : String × AttrValue) (q : String × PyVal)
    (h : trPair p = .ok q) :
    ∃ v', translateAttr p.1 p.2 = .ok v' ∧ q = (p.1, v') := by
  unfold trPair at h
  cases ht : translateAttr p.1 p.2 with
  | error e => rw [ht] at h; exact absurd h (by simp)
  | ok v =>
    rw [ht] at h
    exact ⟨v, rfl, by simpa using h.symm⟩

theorem mapE_trPair_spec (l : List (String × AttrValue))
    (res : List (String × PyVal)) (h : mapE trPair l = .ok res) :
    res.map Prod.fst = l.map Prod.fst ∧
    ∀ p ∈ l, ∃ v', translateAttr p.1 p.2 = .ok v' ∧ (p.1, v') ∈ res := by
  induction l generalizing res with
  | nil =>
    have hres : res = [] := by simpa [mapE] using h.symm
    subst hres
    exact ⟨rfl, by simp⟩
  | cons p rest ih =>
    simp only [mapE] at h
    cases ht : trPair p with
    | error e => rw [ht] at h; exact absurd h (by simp)
    | ok q =>
      rw [ht] at h
      cases hr : mapE trPair rest with
      | error e => rw [hr] at h; exact absurd h (by simp)
      | ok qs =>
        rw [hr] at h
        have hres : q :: qs = res := by simpa using h
        subst hres
        obtain ⟨hmap, hmem⟩ := ih qs hr
        obtain ⟨v', hv, hq⟩ := trPair_ok p q ht
        constructor
        · rw [List.map_cons, List.map_cons, hmap, hq]
        · intro x hx
          rcases List.mem_cons.mp hx with heq | hx'
          · exact ⟨v', heq ▸ hv, by rw [hq, ← heq]; exact List.mem_cons_self _ _⟩
          · obtain ⟨w, hw, hmw⟩ := hmem x hx'
            exact ⟨w, hw, List.mem_cons_of_mem q hmw⟩

/-- C2: `handle_trivial` coerces each attribute value through
`attr_translator` first (`dtype` via `tensor_type_to_tf_type`, `keepdims` via
`bool`), then renames keys through `onnx_tf_attribute_map` (`scale`→`stddev`,
`axes`→`axis`, `keepdims`→`keep_dims`, all other names unchanged), and calls
the mapped operator with the node's inputs in order as positional arguments
and the renamed attributes as keyword arguments. -/
theorem handle_trivial_spec (node : OnnxNode) (input_dict : PyDict TfExpr)
    (res : List TfExpr) (hres : handle_trivial node input_dict = .ok res)
    (hnd : (node.attrs.map (fun p => renameAttr p.1)).Nodup) :
    (∃ op tats inputs,
      onnx_tf_op_map (op_name_to_lower node.op_type) = some op ∧
      mapE trPair node.attrs = .ok tats ∧
      mapE (fetchByName input_dict) node.inputs = .ok inputs ∧
      res = [TfExpr.app op inputs
        (dictOfList (tats.map (fun p => (renameAttr p.1, p.2))))] ∧
      ∀ k v, (k, v) ∈ node.attrs → ∃ v',
        translateAttr k v = .ok v' ∧
        lookupD (dictOfList (tats.map (fun p => (renameAttr p.1, p.2))))
          (renameAttr k) = some v') ∧
    onnx_tf_attribute_map "scale" = some "stddev" ∧
    onnx_tf_attribute_map "axes" = some "axis" ∧
    onnx_tf_attribute_map "keepdims" = some "keep_dims" ∧
    (∀ k, onnx_tf_attribute_map k = none → renameAttr k = k) ∧
    (∀ v, translateAttr "keepdims" v = .ok (.pyBool (pyTruthy v))) ∧
    (∀ n ty, tensor_type_to_tf_type n = some ty →
      translateAttr "dtype" (.i n) = .ok (.tfType ty)) ∧
    (∀ k v, k ≠ "dtype" → k ≠ "keepdims" → translateAttr k v = .ok (.ofAttr v)) := by
  refine ⟨?_, rfl, rfl, rfl, ?_, ?_, ?_, ?_⟩
  · simp only [handle_trivial] at hres
    cases ht : mapE trPair node.attrs with
    | error e => rw [ht] at hres; exact absurd hres (by simp)
    | ok tats =>
      rw [ht] at hres
      cases hi : mapE (fetchByName input_dict) node.inputs with
      | error e => rw [hi] at hres; exact absurd hres (by simp)
      | ok inputs =>
        rw [hi] at hres
        cases hop : onnx_tf_op_map (op_name_to_lower node.op_type) with
        | none => rw [hop] at hres; exact absurd hres (by simp)
        | some op =>
          rw [hop] at hres
          refine ⟨op, tats, inputs, rfl, rfl, rfl, by simpa using hres.symm, ?_⟩
          intro k v hm
          obtain ⟨hmap, hmem⟩ := mapE_trPair_spec node.attrs tats ht
          obtain ⟨v', hv, hm'⟩ := hmem (k, v) hm
          refine ⟨v', hv, ?_⟩
          apply lookupD_dictOfList_of_mem
          · have hkeys : (tats.map (fun p => (renameAttr p.1, p.2))).map Prod.fst =
                node.attrs.map (fun p => renameAttr p.1) := by
              calc (tats.map (fun p => (renameAttr p.1, p.2))).map Prod.fst
                  = (tats.map Prod.fst).map renameAttr := by
                    rw [List.map_map, List.map_map]
                    rfl
                _ = (node.attrs.map Prod.fst).map renameAttr := by rw [hmap]
                _ = node.attrs.map (fun p => renameAttr p.1) := by
                    rw [List.map_map]
                    rfl
            rw [hkeys]
            exact hnd
          · exact List.mem_map.mpr ⟨(k, v'), hm', rfl⟩
  · intro k h
    unfold renameAttr
    rw [h]
    rfl
  · intro v
    rfl
  · intro n ty h
    simp [translateAttr, dtypeLookup, h]
  · intro k v h1 h2
    unfold translateAttr
    rw [if_neg h1, if_neg h2]

/-- Concrete `RandomNormal` node used by the witness of the
`handle_trivial` theorem. -/
def randomNormalNode : OnnxNode where
  op_type := "RandomNormal"
  attrs := [("scale", AttrValue.f 2), ("dtype", AttrValue.i 1)]

/-- The invocation `handle_trivial` emits for `randomNormalNode`. -/
def randomNormalCall : TfExpr :=
  TfExpr.app TfOp.random_normal []
    [("stddev", PyVal.ofAttr (AttrValue.f 2)), ("dtype", PyVal.tfType TfType.float32)]

/-- Witness for C2: on a `RandomNormal` node with attributes `scale` and
`dtype`, `scale` is renamed to `stddev` with its value untouched, `dtype` is
coerced to the TensorFlow dtype, and a single `tf.random_normal(**attrs)`
call is emitted. -/
theorem handle_trivial_spec_witness :
    ∃ op tats inputs,
      onnx_tf_op_map (op_name_to_lower randomNormalNode.op_type) = some op ∧
      mapE trPair randomNormalNode.attrs = .ok tats ∧
      mapE (fetchByName []) randomNormalNode.inputs = .ok inputs ∧
      [randomNormalCall] = [TfExpr.app op inputs
        (dictOfList (tats.map (fun p => (renameAttr p.1, p.2))))] ∧
      ∀ k v, (k, v) ∈ randomNormalNode.attrs → ∃ v',
        translateAttr k v = .ok v' ∧
        lookupD (dictOfList (tats.map (fun p => (renameAttr p.1, p.2))))
          (renameAttr k) = some v' :=
  (handle_trivial_spec randomNormalNode [] [randomNormalCall] rfl (by decide)).1

/-! ## `OnnxAttributes.from_onnx`: the attribute dictionary -/

theorem from_onnx_go_all (args : List AttributeProto) :
    ∀ (d d' : PyDict AttrValue), OnnxAttributes.from_onnx_go d args = .ok d' →
      ∀ a ∈ args, ∃ v, convertAttributeProto a = .ok v := by
  induction args with
  | nil => intro d d' _ a ha; cases ha
  | cons a rest ih =>
    intro d d' h b hb
    simp only [OnnxAttributes.from_onnx_go] at h
    cases hc : convertAttributeProto a with
    | error e => rw [hc] at h; exact absurd h (by simp)
    | ok v =>
      rw [hc] at h
      rcases List.mem_cons.mp hb with heq | hb'
      · exact ⟨v, heq ▸ hc⟩
      · exact ih _ _ h b hb'

theorem from_onnx_go_lookup (args : List AttributeProto) :
    ∀ (d d' : PyDict AttrValue), OnnxAttributes.from_onnx_go d args = .ok d' →
      ∀ nm, lookupD d' nm =
        match args.reverse.find? (fun a => a.name = nm) with
        | some a => (convertAttributeProto a).toOption
        | none => lookupD d nm := by
  induction args with
  | nil =>
    intro d d' h nm
    have hd : d = d' := by simpa [OnnxAttributes.from_onnx_go] using h
    subst hd
    rfl
  | cons a rest ih =>
    intro d d' h nm
    simp only [OnnxAttributes.from_onnx_go] at h
    cases hc : convertAttributeProto a with
    | error e => rw [hc] at h; exact absurd h (by simp)
    | ok v =>
      rw [hc] at h
      have hrec := ih _ _ h nm
      rw [List.reverse_cons, List.find?_append]
      cases hf : rest.reverse.find? (fun a => decide (a.name = nm)) with
      | some b =>
        rw [hf] at hrec
        simpa [Option.or] using hrec
      | none =>
        rw [hf] at hrec
        rw [hrec, lookupD_dictInsert]
        by_cases hn : a.name = nm
        · rw [if_pos hn.symm]
          have hfa : List.find? (fun b => decide (b.name = nm)) [a] = some a := by
            simp [List.find?, hn]
          rw [hfa]
          simp [Option.or, hc, Except.toOption]
        · have hn' : ¬ nm = a.name := fun hh => hn hh.symm
          rw [if_neg hn']
          have hfa : List.find? (fun b => decide (b.name = nm)) [a] = none := by
            simp [List.find?, hn]
          rw [hfa]
          rfl

/-- C6: `from_onnx` maps each attribute's name to the Python object
`convertAttributeProto` produces for it, a later attribute of the same name
overwriting an earlier one (the lookup finds the last occurrence), and the
dictionary has an entry exactly for the attribute names present. -/
theorem from_onnx_spec (args : List AttributeProto) (d : PyDict AttrValue)
    (h : OnnxAttributes.from_onnx args = .ok d) :
    (∀ a ∈ args, ∃ v, convertAttributeProto a = .ok v) ∧
    (∀ nm, lookupD d nm =
      (args.reverse.find? (fun a => a.name = nm)).bind
        (fun a => (convertAttributeProto a).toOption)) ∧
    (∀ nm, lookupD d nm = none ↔ nm ∉ args.map AttributeProto.name) := by
  have h1 := from_onnx_go_all args [] d h
  have h2 := from_onnx_go_lookup args [] d h
  refine ⟨h1, ?_, ?_⟩
  · intro nm
    rw [h2 nm]
    cases hf : args.reverse.find? (fun a => decide (a.name = nm)) with
    | none => rfl
    | some a => rfl
  · intro nm
    rw [h2 nm]
    cases hf : args.reverse.find? (fun a => decide (a.name = nm)) with
    | none =>
      simp only [lookupD_nil]
      constructor
      · intro _ hmem
        rcases List.mem_map.mp hmem with ⟨a, ha, hna⟩
        have hnone := List.find?_eq_none.mp hf a (List.mem_reverse.mpr ha)
        simp only [decide_eq_true_eq] at hnone
        exact hnone hna
      · intro _; trivial
    | some a =>
      have hm : a ∈ args := List.mem_reverse.mp (List.mem_of_find?_eq_some hf)
      have hp : a.name = nm := by simpa using List.find?_some hf
      obtain ⟨v, hv⟩ := h1 a hm
      simp only [hv]
      constructor
      · intro habs; exact absurd habs (by simp [Except.toOption])
      · intro hnin
        exact absurd (List.mem_map.mpr ⟨a, hm, hp⟩) hnin

/-- Two attributes named `"alpha"`: the later one (integer `2`) wins. -/
theorem from_onnx_spec_witness :
    lookupD [("alpha", AttrValue.i 2)] "alpha" =
      (List.find? (fun a : AttributeProto => a.name = "alpha")
          (([{ name := "alpha", f := some 1 }, { name := "alpha", i := some 2 }]
            : List AttributeProto).reverse)).bind
        (fun a => (convertAttributeProto a).toOption) :=
  (from_onnx_spec
    [{ name := "alpha", f := some 1 }, { name := "alpha", i := some 2 }]
    [("alpha", AttrValue.i 2)] rfl).2.1 "alpha"

/-! ## `OnnxNode.__init__` and `consumed_inputs` -/

theorem lookupD_filter_ne {α : Type} (l : PyDict α) (key k : String) :
    lookupD (l.filter (fun p => p.1 ≠ key)) k =
      if k = key then none else lookupD l k := by
  induction l with
  | nil =>
    by_cases h : k = key <;> simp [h, lookupD_nil]
  | cons p rest ih =>
    rw [List.filter_cons]
    by_cases hp : p.1 = key
    · rw [if_neg (by simp [hp]), ih]
      by_cases hk : k = key
      · rw [if_pos hk, if_pos hk]
      · rw [if_neg hk, if_neg hk, lookupD_cons,
          if_neg (fun hh : p.1 = k => hk (hh.symm.trans hp))]
    · rw [if_pos (by simp [hp]), lookupD_cons]
      by_cases hk : k = key
      · have hpk : ¬ p.1 = k := fun hh => hp (hh.trans hk)
        rw [if_neg hpk, ih, if_pos hk, if_pos hk]
      · rw [ih, if_neg hk, if_neg hk, lookupD_cons]

/-- C9: after `OnnxNode.__init__`, the `attrs` dictionary never contains the
key `"consumed_inputs"` (its value, when present, moved to the separate
`consumed_inputs` field, which is otherwise `None`), and every other
attribute of the original node is preserved in `attrs` unchanged. -/
theorem onnxnode_init_spec (nodeP : NodeProto) (node : OnnxNode)
    (d : PyDict AttrValue)
    (h1 : OnnxNode.init nodeP = .ok node)
    (h2 : OnnxAttributes.from_onnx nodeP.attribute_list = .ok d) :
    lookupD node.attrs "consumed_inputs" = none ∧
    node.consumed_inputs = lookupD d "consumed_inputs" ∧
    ∀ k, k ≠ "consumed_inputs" → lookupD node.attrs k = lookupD d k := by
  simp only [OnnxNode.init] at h1
  rw [h2] at h1
  have hnode : node =
      { name := nodeP.name
        op_type := nodeP.op_type
        attrs := d.filter (fun p => p.1 ≠ "consumed_inputs")
        consumed_inputs := lookupD d "consumed_inputs"
        inputs := nodeP.input
        outputs := nodeP.output } := by
    simpa using h1.symm
  subst hnode
  refine ⟨?_, rfl, ?_⟩
  · rw [lookupD_filter_ne]
    simp
  · intro k hk
    rw [lookupD_filter_ne]
    exact if_neg hk

/-- A node carrying a `consumed_inputs` attribute and an `alpha` attribute. -/
def consumedProto : NodeProto where
  op_type := "Relu"
  attribute_list :=
    [{ name := "consumed_inputs", ints := [1, 0] }, { name := "alpha", f := some 1 }]

/-- The `OnnxNode` built from `consumedProto`: `consumed_inputs` was popped
out of `attrs` into its own field. -/
def consumedNode : OnnxNode where
  op_type := "Relu"
  attrs := [("alpha", AttrValue.f 1)]
  consumed_inputs := some (AttrValue.ints [1, 0])

/-- The raw attribute dictionary of `consumedProto` before the pop. -/
def consumedDict : PyDict AttrValue :=
  [("consumed_inputs", AttrValue.ints [1, 0]), ("alpha", AttrValue.f 1)]

/-- Witness for C9 on `consumedProto`. -/
theorem onnxnode_init_spec_witness :
    lookupD consumedNode.attrs "consumed_inputs" = none ∧
    consumedNode.consumed_inputs = lookupD consumedDict "consumed_inputs" ∧
    ∀ k, k ≠ "consumed_inputs" →
      lookupD consumedNode.attrs k = lookupD consumedDict k :=
  onnxnode_init_spec consumedProto consumedNode consumedDict rfl rfl

/-! ## `handle_sum`: sum of all inputs -/

theorem mapE_length {α β : Type} (f : α → Except String β) (l : List α)
    (res : List β) (h : mapE f l = .ok res) : res.length = l.length := by
  induction l generalizing res with
  | nil =>
    have : res = [] := by simpa [mapE] using h.symm
    simp [this]
  | cons a rest ih =>
    simp only [mapE] at h
    cases hf : f a with
    | error e => rw [hf] at h; exact absurd h (by simp)
    | ok b =>
      rw [hf] at h
      cases hr : mapE f rest with
      | error e => rw [hr] at h; exact absurd h (by simp)
      | ok bs =>
        rw [hr] at h
        have : b :: bs = res := by simpa using h
        subst this
        simp [ih bs hr]

theorem mapO_constVal_map_const (ts : List (List ℚ)) :
    mapO constVal (ts.map TfExpr.const) = some ts := by
  induction ts with
  | nil => rfl
  | cons t rest ih =>
    simp only [List.map_cons, mapO, constVal]
    rw [ih]

theorem foldl_zipWith_add (rows : List (List ℚ)) :
    ∀ (acc : List ℚ), (∀ r ∈ rows, r.length = acc.length) →
      (rows.foldl (fun a s => List.zipWith (· + ·) a s) acc).length = acc.length ∧
      ∀ j, j < acc.length →
        (rows.foldl (fun a s => List.zipWith (· + ·) a s) acc).getD j 0 =
          acc.getD j 0 + (rows.map (fun r => r.getD j 0)).sum := by
  induction rows with
  | nil =>
    intro acc _
    exact ⟨rfl, fun j _ => by simp⟩
  | cons r rest ih =>
    intro acc h
    rw [List.foldl_cons]
    have hr : r.length = acc.length := h r (List.mem_cons_self r rest)
    have hzl : (List.zipWith (· + ·) acc r).length = acc.length := by
      rw [List.length_zipWith, ← hr, min_self]
    obtain ⟨hl, hsum⟩ := ih (List.zipWith (· + ·) acc r)
      (fun x hx => by rw [hzl]; exact h x (List.mem_cons_of_mem r hx))
    refine ⟨by rw [hl, hzl], fun j hj => ?_⟩
    rw [hsum j (by rw [hzl]; exact hj), List.map_cons, List.sum_cons]
    have hget : (List.zipWith (· + ·) acc r).getD j 0 = acc.getD j 0 + r.getD j 0 := by
      rw [List.getD_eq_getElem?_getD, List.getElem?_zipWith,
        List.getElem?_eq_getElem hj, List.getElem?_eq_getElem (hr ▸ hj),
        List.getD_eq_getElem?_getD, List.getD_eq_getElem?_getD,
        List.getElem?_eq_getElem hj, List.getElem?_eq_getElem (hr ▸ hj)]
      rfl
    rw [hget]
    ring

/-- C7: `handle_sum` returns a singleton list whose sole tensor —
`tf.reduce_sum(tf.stack(values), axis=0)` over the node's looked-up constant
inputs — evaluates to the element-wise sum of all the input tensors. -/
theorem handle_sum_spec (node : OnnxNode) (input_dict : PyDict TfExpr)
    (ts : List (List ℚ)) (n : Nat)
    (hne : node.inputs ≠ [])
    (hlk : mapE (fetchByName input_dict) node.inputs = .ok (ts.map TfExpr.const))
    (hlen : ∀ t ∈ ts, t.length = n) :
    ∃ e, handle_sum node input_dict = .ok [e] ∧
      ∃ s, evalE e = some (.r1 s) ∧ s.length = n ∧
        ∀ j, j < n → s.getD j 0 = (ts.map (fun t => t.getD j 0)).sum := by
  refine ⟨TfExpr.reduce_sum0 (.stack (ts.map TfExpr.const)), ?_, ?_⟩
  · simp only [handle_sum]
    rw [hlk]
  · have hts : ts ≠ [] := by
      intro hempty
      have := mapE_length _ _ _ hlk
      rw [hempty] at this
      exact hne (List.length_eq_zero.mp this.symm)
    cases hcase : ts with
    | nil => exact absurd hcase hts
    | cons t rest =>
      subst hcase
      have ht : t.length = n := hlen t (List.mem_cons_self t rest)
      have hall : rest.all (fun u => u.length = t.length) = true := by
        rw [List.all_eq_true]
        intro u hu
        simp [hlen u (List.mem_cons_of_mem t hu), ht]
      simp only [evalE, mapO_constVal_map_const, hall, if_true]
      obtain ⟨hl, hsum⟩ := foldl_zipWith_add rest t
        (fun r hr => by rw [ht, hlen r (List.mem_cons_of_mem t hr)])
      refine ⟨_, rfl, by rw [hl, ht], fun j hj => ?_⟩
      rw [hsum j (ht.symm ▸ hj), List.map_cons, List.sum_cons]

/-- Witness for C7: summing `[1, 2]` and `[3, 4]` element-wise. -/
theorem handle_sum_spec_witness :
    ∃ e, handle_sum { op_type := "Sum", inputs := ["a", "b"] }
        [("a", TfExpr.const [1, 2]), ("b", TfExpr.const [3, 4])] = .ok [e] ∧
      ∃ s, evalE e = some (.r1 s) ∧ s.length = 2 ∧
        ∀ j, j < 2 → s.getD j 0 =
          (([[1, 2], [3, 4]] : List (List ℚ)).map (fun t => t.getD j 0)).sum :=
  handle_sum_spec { op_type := "Sum", inputs := ["a", "b"] }
    [("a", TfExpr.const [1, 2]), ("b", TfExpr.const [3, 4])]
    [[1, 2], [3, 4]] 2 (by decide) rfl (by decide)

/-! ## `run_node`: one synchronous pass -/

theorem mapE_sessRun_of_mapO (ops : List TfExpr) (vals : List TVal)
    (h : mapO evalE ops = some vals) : mapE sessRun ops = .ok vals := by
  induction ops generalizing vals with
  | nil =>
    have : vals = [] := by simpa [mapO] using h.symm
    subst this
    rfl
  | cons op rest ih =>
    simp only [mapO] at h
    cases he : evalE op with
    | none => rw [he] at h; exact absurd h (by simp)
    | some v =>
      rw [he] at h
      cases hr : mapO evalE rest with
      | none => rw [hr] at h; exact absurd h (by simp)
      | some vs =>
        rw [hr] at h
        have : v :: vs = vals := by simpa using h
        subst this
        simp only [mapE, sessRun, he, ih vs hr]

/-- C4: `run_node` builds `OnnxNode`, wraps the inputs as constant tensors
keyed by input name, translates the node, evaluates every produced operator
in a session, and returns the `Outputs` tuple pairing the node's output names
with the evaluated results, in order. -/
theorem run_node_spec (nodeP : NodeProto) (node : OnnxNode)
    (inputs : List (List ℚ)) (ops : List TfExpr) (vals : List TVal)
    (h1 : OnnxNode.init nodeP = .ok node)
    (h2 : node.inputs.length = inputs.length)
    (h3 : onnx_node_to_tensorflow_op node
      (dictOfList (List.zip node.inputs (inputs.map TfExpr.const))) = .ok (some ops))
    (h4 : mapO evalE ops = some vals)
    (h5 : node.outputs.length = vals.length) :
    run_node nodeP inputs = .ok (List.zip node.outputs vals) ∧
    (List.zip node.outputs vals).map Prod.fst = node.outputs ∧
    (List.zip node.outputs vals).map Prod.snd = vals := by
  refine ⟨?_, List.map_fst_zip _ _ (le_of_eq h5),
    List.map_snd_zip _ _ (le_of_eq h5.symm)⟩
  simp only [run_node, h1]
  rw [if_pos h2]
  simp only [h3]
  simp only [mapE_sessRun_of_mapO ops vals h4]
  rw [if_pos h5]

/-- The `Sum` node used by the `run_node` witness. -/
def sumProto : NodeProto where
  op_type := "Sum"
  input := ["a", "b"]
  output := ["y"]

/-- The `OnnxNode` built from `sumProto`. -/
def sumNode : OnnxNode where
  op_type := "Sum"
  inputs := ["a", "b"]
  outputs := ["y"]

/-- Witness for C4: running a `Sum` node over two (empty) constant tensors
produces the output named `"y"` holding the evaluated sum. -/
theorem run_node_spec_witness :
    run_node sumProto [[], []] = .ok (List.zip sumNode.outputs [TVal.r1 []]) ∧
    (List.zip sumNode.outputs [TVal.r1 []]).map Prod.fst = sumNode.outputs ∧
    (List.zip sumNode.outputs [TVal.r1 []]).map Prod.snd = [TVal.r1 []] :=
  run_node_spec sumProto sumNode [[], []]
    [TfExpr.reduce_sum0 (.stack [.const [], .const []])] [TVal.r1 []]
    rfl rfl rfl rfl rfl

/-! ## `handle_p_relu`: the PReLU formula -/

/-- C10: the formula `relu(x) + slope * (x - abs(x)) * 0.5` emitted by
`handle_p_relu` is, in exact arithmetic, the piecewise PReLU: it evaluates to
`x` when `x ≥ 0` and to `slope * x` when `x < 0`. -/
theorem handle_p_relu_spec (node : OnnxNode) (input_dict : PyDict TfExpr)
    (nx ns : String) (x slope : ℚ)
    (hin : node.inputs = [nx, ns])
    (hx : lookupD input_dict nx = some (.const [x]))
    (hs : lookupD input_dict ns = some (.const [slope])) :
    ∃ e, handle_p_relu node input_dict = .ok [e] ∧
      (0 ≤ x → evalE e = some (.r1 [x])) ∧
      (x < 0 → evalE e = some (.r1 [slope * x])) := by
  refine ⟨TfExpr.add (.relu (.const [x]))
    (.mulConst (.mul (.const [slope]) (.sub (.const [x]) (.absE (.const [x]))))
      (1 / 2)), ?_, ?_, ?_⟩
  · simp [handle_p_relu, fetchInput, hin, fetchByName, hx, hs]
  · intro h0
    simp [evalE, r1map, r1zip]
    rw [abs_of_nonneg h0, max_eq_left h0]
    ring
  · intro h0
    simp [evalE, r1map, r1zip]
    rw [abs_of_neg h0, max_eq_right (le_of_lt h0)]
    ring

/-- Witness for C10 at `x = 1`, `slope = 3`. -/
theorem handle_p_relu_spec_witness :
    ∃ e, handle_p_relu { op_type := "PRelu", inputs := ["x", "s"] }
        [("x", TfExpr.const [1]), ("s", TfExpr.const [3])] = .ok [e] ∧
      ((0 : ℚ) ≤ 1 → evalE e = some (.r1 [1])) ∧
      ((1 : ℚ) < 0 → evalE e = some (.r1 [3 * 1])) :=
  handle_p_relu_spec { op_type := "PRelu", inputs := ["x", "s"] }
    [("x", TfExpr.const [1]), ("s", TfExpr.const [3])] "x" "s" 1 3 rfl rfl rfl

end OnnxTF
